import Mathlib

/-!
Shallow embedding of `src/log-to-string.c`.

`log_to_string(fmt, vargs)` mallocs a 256-byte buffer and repeatedly calls
`vsnprintf`, growing the buffer (exact resize to `n + 1` when the reported
length `n` is non-negative, doubling otherwise) until the reported length is
non-negative and strictly below the capacity; on any allocation failure it
frees the held buffer and returns NULL.  `log_to_string_free` is `free`.

The embedding abstracts the pair (format string, argument list) into a
`Facility`: what the `vsnprintf` call returns for a given buffer capacity and
what it leaves in the buffer.  The allocator is an oracle `Nat → Bool` giving
the outcome of the i-th allocation event (event 0 is the initial `malloc`,
event i ≥ 1 the i-th `realloc`).  C `int` arithmetic is two's-complement
32-bit, wrapped explicitly by `wrap`.  The heap is modelled as the list of
live block ids, so leak-freedom is observable; the caller's `va_list` is a
cursor value `va` which the loop copies afresh for every attempt (`curs`
records the cursor handed to each attempt, and the completion state records
the caller's cursor at return).  Execution is fuel-indexed: `fin = none`
means the fuel ran out before the function returned.
-/

namespace LogToString

/-- Two's-complement reduction of a mathematical integer to the value a
32-bit C `int` holds: the representative of `x mod 2^32` in `[-2^31, 2^31)`. -/
def wrap (x : Int) : Int := (x + 2^31) % 2^32 - 2^31

/-- Lines 22–25: the capacity used for the next iteration, as a function of
the reported length `n` and the current `size` (`size = n + 1` when
`n > -1`, else `size *= 2`), in wrapped `int` arithmetic. -/
def nextSize (n size : Int) : Int :=
  if -1 < n then wrap (n + 1) else wrap (size * 2)

/-- What the underlying `vsnprintf` does, for a fixed format string and
argument-list value: `report size` is its return value given buffer capacity
`size`, and `write size old` is the buffer content (the characters before the
terminator) it leaves, given capacity `size` and previous content `old`. -/
structure Facility where
  report : Int → Int
  write : Int → List Char → List Char

/-- The state at a `return` of `log_to_string`: the result (`none` = NULL;
otherwise content, capacity and heap block id of the returned buffer), the
live heap blocks at that point, and the caller's `va_list` cursor. -/
structure CompState where
  result : Option (List Char × Int × Nat)
  heap : List Nat
  va : Nat
deriving DecidableEq

/-- Observable outcome of a fuel-bounded run: `fin = none` when the fuel ran
out, otherwise the completion state; `caps` lists the capacities passed to
the successive `vsnprintf` attempts; `curs` lists the argument-list cursor
handed to each attempt. -/
structure RunOut where
  fin : Option CompState
  caps : List Int
  curs : List Nat
deriving DecidableEq

/-- C `free` on the modelled heap: remove the block; `free(NULL)` is a
no-op. -/
def freeBlock (p : Option Nat) (heap : List Nat) : List Nat :=
  match p with
  | none => heap
  | some b => heap.erase b

/-- The `while (1)` loop of `log_to_string` (lines 12–33).  Each iteration
copies the caller's cursor `va` (`va_copy`), calls `vsnprintf` (recording the
capacity and the cursor it received), and either returns the buffer
(`n > -1 && n < size`), or computes `nextSize` and reallocates: on realloc
success the old block is replaced by a fresh block id `nid`; on failure the
held block is freed and NULL is returned. -/
def run (F : Facility) (aok : Nat → Bool) (va : Nat) :
    Nat → Int → List Char → Nat → Nat → Nat → List Nat → RunOut
  | 0, _, _, _, _, _, _ => ⟨none, [], []⟩
  | fuel + 1, size, buf, i, bid, nid, heap =>
    let n := wrap (F.report size)
    let buf2 := F.write size buf
    if -1 < n ∧ n < size then
      ⟨some ⟨some (buf2, size, bid), heap, va⟩, [size], [va]⟩
    else
      let size2 := nextSize n size
      if aok i then
        let r := run F aok va fuel size2 buf2 (i + 1) nid (nid + 1)
          (nid :: freeBlock (some bid) heap)
        ⟨r.fin, size :: r.caps, va :: r.curs⟩
      else
        ⟨some ⟨none, freeBlock (some bid) heap, va⟩, [size], [va]⟩

/-- `log_to_string` (lines 5–36): `malloc(256)` is allocation event 0 and
block id 0; if it fails, NULL is returned at once; otherwise the loop runs
starting at capacity 256. -/
def log_to_string (F : Facility) (aok : Nat → Bool) (va : Nat)
    (fuel : Nat) : RunOut :=
  if aok 0 then run F aok va fuel 256 [] 1 0 1 [0]
  else ⟨some ⟨none, [], va⟩, [], []⟩

/-- `log_to_string_free` (lines 38–40): `free(buffer)`. -/
def log_to_string_free (p : Option Nat) (heap : List Nat) : List Nat :=
  freeBlock p heap

/-- A C99-conforming `vsnprintf` for a call whose full formatted output is
`s`: it reports the length of `s` whenever that is representable in `int`
(otherwise a negative error value, as for `EOVERFLOW`), and with capacity
`size > 0` it writes the first `size - 1` characters of `s`. -/
def conforming (s : List Char) : Facility where
  report _ := if (s.length : Int) ≤ 2^31 - 1 then (s.length : Int) else -1
  write size old := if size ≤ 0 then old else s.take (size - 1).toNat

/-- A facility whose report is always `-1` and which leaves the buffer
unchanged: a persistently failing `vsnprintf`. -/
def constNeg : Facility := ⟨fun _ => -1, fun _ old => old⟩

/-- A facility that reports the fixed length `L` independently of capacity,
as a C99 `vsnprintf` reporting a true required length `L` does. -/
def constRep (L : Int) : Facility := ⟨fun _ => L, fun _ old => old⟩

/-- The always-succeeding allocator. -/
def allocAll : Nat → Bool := fun _ => true

/-- Capacity after `k` doubling steps from `s` in wrapped `int` arithmetic. -/
def capIter (s : Int) : Nat → Int
  | 0 => s
  | k + 1 => wrap (capIter s k * 2)

/-- `log_to_string` terminates for this facility, allocator and argument
list: some fuel suffices for the call to return. -/
def Terminates (F : Facility) (aok : Nat → Bool) (va : Nat) : Prop :=
  ∃ fuel, (log_to_string F aok va fuel).fin ≠ none

theorem wrap_eq_self {x : Int} (h1 : -2^31 ≤ x) (h2 : x < 2^31) :
    wrap x = x := by
  unfold wrap; omega

theorem wrap_modEq (x : Int) : wrap x ≡ x [ZMOD 2^32] := by
  unfold Int.ModEq wrap; omega

theorem wrap_neg_one : wrap (-1) = -1 := by decide

/-- Every attempted iteration records its capacity first. -/
theorem run_caps_head (F : Facility) (aok : Nat → Bool) (va : Nat)
    (fuel : Nat) (size : Int) (buf : List Char) (i bid nid : Nat)
    (heap : List Nat) :
    ∃ rest, (run F aok va (fuel + 1) size buf i bid nid heap).caps =
      size :: rest := by
  rw [run]
  dsimp only
  split
  · exact ⟨[], rfl⟩
  · split
    · exact ⟨_, rfl⟩
    · exact ⟨[], rfl⟩

/-- If the fuel runs out, every allocation event consulted in the window
succeeded (the loop only returns early on success or allocation failure). -/
theorem run_fin_none_aok (F : Facility) (aok : Nat → Bool) (va : Nat) :
    ∀ (fuel : Nat) (size : Int) (buf : List Char) (i bid nid : Nat)
      (heap : List Nat),
      (run F aok va fuel size buf i bid nid heap).fin = none →
      ∀ j, i ≤ j → j < i + fuel → aok j = true := by
  intro fuel
  induction fuel with
  | zero => intro size buf i bid nid heap _ j h1 h2; omega
  | succ fuel ih =>
    intro size buf i bid nid heap hnone j h1 h2
    rw [run] at hnone
    dsimp only at hnone
    split at hnone
    · simp at hnone
    · split at hnone
      · rename_i hok
        rcases Nat.eq_or_lt_of_le h1 with rfl | hlt
        · exact hok
        · exact ih _ _ _ _ _ _ hnone j hlt (by omega)
      · simp at hnone

/-- With the persistently negative facility and a never-failing allocator the
loop never returns: no amount of fuel completes the run. -/
theorem run_constNeg_none (va : Nat) :
    ∀ (fuel : Nat) (size : Int) (buf : List Char) (i bid nid : Nat)
      (heap : List Nat),
      (run constNeg allocAll va fuel size buf i bid nid heap).fin = none := by
  intro fuel
  induction fuel with
  | zero => intro size buf i bid nid heap; rfl
  | succ fuel ih =>
    intro size buf i bid nid heap
    rw [run]
    dsimp only
    rw [if_neg (by rw [show constNeg.report size = -1 from rfl, wrap_neg_one]; simp),
      if_pos (show allocAll i = true from rfl)]
    exact ih _ _ _ _ _ _

theorem capIter_shift (s : Int) : ∀ k, capIter (wrap (s * 2)) k = capIter s (k + 1) := by
  intro k
  induction k with
  | zero => rfl
  | succ k ih =>
    rw [capIter, ih]
    conv_rhs => rw [capIter]

/-- Capacity trace of the run under the persistently negative facility:
iterated wrapped doubling. -/
theorem run_constNeg_caps (va : Nat) :
    ∀ (fuel k : Nat) (size : Int) (buf : List Char) (i bid nid : Nat)
      (heap : List Nat), k < fuel →
      (run constNeg allocAll va fuel size buf i bid nid heap).caps[k]? =
        some (capIter size k) := by
  intro fuel
  induction fuel with
  | zero => intro k size buf i bid nid heap h; omega
  | succ fuel ih =>
    intro k size buf i bid nid heap hk
    rw [run]
    dsimp only
    rw [if_neg (by rw [show constNeg.report size = -1 from rfl, wrap_neg_one]; simp),
      if_pos (show allocAll i = true from rfl)]
    have hns : nextSize (wrap (constNeg.report size)) size = wrap (size * 2) := by
      rw [show constNeg.report size = -1 from rfl, wrap_neg_one, nextSize, if_neg]
      omega
    cases k with
    | zero =>
      dsimp only
      rw [List.getElem?_cons_zero]
      rfl
    | succ k =>
      dsimp only
      rw [List.getElem?_cons_succ, hns, ih k _ _ _ _ _ _ (by omega), capIter_shift]

/-- Every buffer returned by the loop arises from a successful `vsnprintf`
attempt: its content is what that attempt wrote into a buffer of exactly the
returned capacity, and the exit test `n > -1 && n < size` held there. -/
theorem run_fin_some_result (F : Facility) (aok : Nat → Bool) (va : Nat) :
    ∀ (fuel : Nat) (size : Int) (buf : List Char) (i bid nid : Nat)
      (heap : List Nat) (st : CompState) (b : List Char) (cp : Int) (bi : Nat),
      (run F aok va fuel size buf i bid nid heap).fin = some st →
      st.result = some (b, cp, bi) →
      ∃ buf0, b = F.write cp buf0 ∧
        -1 < wrap (F.report cp) ∧ wrap (F.report cp) < cp := by
  intro fuel
  induction fuel with
  | zero => intro size buf i bid nid heap st b cp bi h _; simp [run] at h
  | succ fuel ih =>
    intro size buf i bid nid heap st b cp bi h h2
    rw [run] at h
    dsimp only at h
    split at h
    · rename_i hcond
      simp only [Option.some.injEq] at h
      subst h
      simp only [Option.some.injEq, Prod.mk.injEq] at h2
      obtain ⟨hb, hcp, hbi⟩ := h2
      subst hcp
      exact ⟨buf, hb.symm, hcond.1, hcond.2⟩
    · split at h
      · exact ih _ _ _ _ _ _ _ _ _ _ h h2
      · simp only [Option.some.injEq] at h
        subst h
        simp at h2

/-- Heap discipline of the loop: starting from a heap holding exactly the
held block, a NULL return leaves the heap empty and is caused by a failed
allocation event, while a successful return leaves exactly the returned
block allocated. -/
theorem run_heap (F : Facility) (aok : Nat → Bool) (va : Nat) :
    ∀ (fuel : Nat) (size : Int) (buf : List Char) (i bid nid : Nat)
      (heap : List Nat) (st : CompState),
      heap = [bid] →
      (run F aok va fuel size buf i bid nid heap).fin = some st →
      (st.result = none → st.heap = [] ∧ ∃ j, aok j = false) ∧
      (∀ b cp bi, st.result = some (b, cp, bi) → st.heap = [bi]) := by
  intro fuel
  induction fuel with
  | zero => intro size buf i bid nid heap st _ h; simp [run] at h
  | succ fuel ih =>
    intro size buf i bid nid heap st hheap h
    subst hheap
    rw [run] at h
    dsimp only at h
    split at h
    · simp only [Option.some.injEq] at h
      subst h
      constructor
      · intro hr; simp at hr
      · intro b cp bi hr
        simp only [Option.some.injEq, Prod.mk.injEq] at hr
        rw [← hr.2.2]
    · split at h
      · have hfree : freeBlock (some bid) [bid] = [] := by
          simp [freeBlock, List.erase_cons_head]
        rw [hfree] at h
        exact ih _ _ _ _ _ _ _ rfl h
      · rename_i hfail
        simp only [Option.some.injEq] at h
        subst h
        constructor
        · intro _
          refine ⟨by simp [freeBlock, List.erase_cons_head], i, ?_⟩
          simpa using hfail
        · intro b cp bi hr; simp at hr

/-- The loop never touches the caller's `va_list`: the cursor handed to each
attempt is the caller's original cursor, and the cursor at return equals the
cursor at entry. -/
theorem run_va (F : Facility) (aok : Nat → Bool) (va : Nat) :
    ∀ (fuel : Nat) (size : Int) (buf : List Char) (i bid nid : Nat)
      (heap : List Nat),
      (run F aok va fuel size buf i bid nid heap).curs =
        List.replicate
          (run F aok va fuel size buf i bid nid heap).curs.length va ∧
      (run F aok va fuel size buf i bid nid heap).fin.map CompState.va =
        (run F aok va fuel size buf i bid nid heap).fin.map (fun _ => va) := by
  intro fuel
  induction fuel with
  | zero => intro size buf i bid nid heap; exact ⟨rfl, rfl⟩
  | succ fuel ih =>
    intro size buf i bid nid heap
    rw [run]
    dsimp only
    split
    · exact ⟨rfl, rfl⟩
    · split
      · obtain ⟨ih1, ih2⟩ := ih (nextSize (wrap (F.report size)) size)
          (F.write size buf) (i + 1) nid (nid + 1)
          (nid :: freeBlock (some bid) heap)
        refine ⟨?_, ih2⟩
        dsimp only
        rw [List.length_cons, List.replicate_succ]
        exact congrArg (va :: ·) ih1
      · exact ⟨rfl, rfl⟩

theorem capIter_modEq : ∀ k, capIter 256 k ≡ 256 * 2^k [ZMOD 2^32] := by
  intro k
  induction k with
  | zero => rfl
  | succ k ih =>
    have h2 : (256 : Int) * 2 ^ (k + 1) = 256 * 2 ^ k * 2 := by ring
    rw [capIter, h2]
    exact (wrap_modEq _).trans (ih.mul_right 2)

/-- If the first attempt's report is non-negative and below 256, the call
returns on that first attempt: content as written at capacity 256, capacity
256, block 0, a single attempted capacity and a single argument-list copy. -/
theorem log_first_attempt (F : Facility) (aok : Nat → Bool) (va : Nat)
    (fuel : Nat) (h0 : aok 0 = true)
    (h1 : -1 < wrap (F.report 256)) (h2 : wrap (F.report 256) < 256) :
    log_to_string F aok va (fuel + 1) =
      ⟨some ⟨some (F.write 256 [], 256, 0), [0], va⟩, [256], [va]⟩ := by
  rw [log_to_string, if_pos h0, run]
  dsimp only
  rw [if_pos ⟨h1, h2⟩]

/-- With a facility reporting the fixed non-negative length `L`, `L + 1`
representable in `int`, the call returns within two attempts. -/
theorem constRep_two_attempts (F : Facility) (L : Int) (aok : Nat → Bool)
    (va : Nat) (hF : ∀ sz, F.report sz = L) (h0 : 0 ≤ L)
    (h1 : L + 1 < 2^31) (ha : aok 0 = true) :
    ∀ fuel, 2 ≤ fuel → (log_to_string F aok va fuel).fin ≠ none ∧
      (log_to_string F aok va fuel).caps.length ≤ 2 := by
  have hw : ∀ sz, wrap (F.report sz) = L := fun sz => by
    rw [hF]; exact wrap_eq_self (by omega) (by omega)
  intro fuel hfuel
  obtain ⟨k, rfl⟩ : ∃ k, fuel = k + 2 := ⟨fuel - 2, by omega⟩
  rw [log_to_string, if_pos ha, run]
  dsimp only
  rw [hw 256]
  by_cases hs : L < 256
  · rw [if_pos ⟨by omega, hs⟩]
    exact ⟨by simp, by simp⟩
  · rw [if_neg (by omega : ¬(-1 < L ∧ L < 256))]
    have hns : nextSize L 256 = L + 1 := by
      rw [nextSize, if_pos (by omega)]
      exact wrap_eq_self (by omega) (by omega)
    by_cases ha1 : aok 1 = true
    · rw [if_pos ha1, hns, run]
      dsimp only
      rw [hw (L + 1), if_pos ⟨by omega, by omega⟩]
      exact ⟨by simp, by simp⟩
    · rw [if_neg ha1]
      exact ⟨by simp, by simp⟩

/-- With a facility reporting the fixed length `L ≥ 256`, `L + 1`
representable, the second attempted capacity is exactly `L + 1`. -/
theorem constRep_second_cap (F : Facility) (L : Int) (aok : Nat → Bool)
    (va : Nat) (hF : ∀ sz, F.report sz = L) (h256 : 256 ≤ L)
    (h1 : L + 1 < 2^31) (ha : aok 0 = true) (ha1 : aok 1 = true) :
    ∀ fuel, 2 ≤ fuel →
      (log_to_string F aok va fuel).caps[1]? = some (L + 1) := by
  have hw : ∀ sz, wrap (F.report sz) = L := fun sz => by
    rw [hF]; exact wrap_eq_self (by omega) (by omega)
  intro fuel hfuel
  obtain ⟨k, rfl⟩ : ∃ k, fuel = k + 2 := ⟨fuel - 2, by omega⟩
  rw [log_to_string, if_pos ha, run]
  dsimp only
  rw [hw 256, if_neg (by omega : ¬(-1 < L ∧ L < 256))]
  have hns : nextSize L 256 = L + 1 := by
    rw [nextSize, if_pos (by omega)]
    exact wrap_eq_self (by omega) (by omega)
  rw [if_pos ha1, hns]
  dsimp only
  rw [List.getElem?_cons_succ]
  obtain ⟨rest, hrest⟩ := run_caps_head F aok va k (L + 1)
    (F.write 256 []) 2 1 2 (1 :: freeBlock (some 0) [0])
  rw [hrest, List.getElem?_cons_zero]

/-- If allocation event `j ≥ 1` fails, the call terminates whatever the
facility reports: with fuel `j` the loop either returns earlier or reaches
the failed reallocation, frees the buffer and returns NULL. -/
theorem terminates_of_alloc_fail (F : Facility) (aok : Nat → Bool)
    (va j : Nat) (hj : 1 ≤ j) (hfail : aok j = false) :
    Terminates F aok va := by
  refine ⟨j, fun hnone => ?_⟩
  rw [log_to_string] at hnone
  split at hnone
  · have := run_fin_none_aok F aok va j 256 [] 1 0 1 [0] hnone j hj (by omega)
    rw [hfail] at this
    exact Bool.false_ne_true this
  · simp at hnone

/-- If the initial `malloc` fails, the call returns NULL at once. -/
theorem terminates_of_malloc_fail (F : Facility) (aok : Nat → Bool)
    (va : Nat) (h : aok 0 = false) : Terminates F aok va :=
  ⟨0, by rw [log_to_string, if_neg (by simp [h])]; simp⟩

/-- C1: whenever `log_to_string` — running over a C99-conforming `vsnprintf`
whose full formatted output is `s` — returns a non-null buffer, that buffer
holds the complete formatted text `s`, never a truncated prefix, and the
final capacity is at least `s.length + 1`. -/
theorem complete_output_of_success (s : List Char) (aok : Nat → Bool)
    (va fuel : Nat) (st : CompState) (b : List Char) (cp : Int) (bi : Nat)
    (hfin : (log_to_string (conforming s) aok va fuel).fin = some st)
    (hres : st.result = some (b, cp, bi)) :
    b = s ∧ (s.length : Int) + 1 ≤ cp := by
  rw [log_to_string] at hfin
  split at hfin
  · obtain ⟨buf0, hb, hpos, hlt⟩ :=
      run_fin_some_result (conforming s) aok va fuel 256 [] 1 0 1 [0]
        st b cp bi hfin hres
    by_cases hL : (s.length : Int) ≤ 2^31 - 1
    · have hrep : (conforming s).report cp = (s.length : Int) := by
        show (if (s.length : Int) ≤ 2^31 - 1 then (s.length : Int) else -1) = _
        rw [if_pos hL]
      rw [hrep, wrap_eq_self (by omega) (by omega)] at hpos hlt
      constructor
      · rw [hb]
        show (if cp ≤ 0 then buf0 else s.take (cp - 1).toNat) = s
        rw [if_neg (by omega)]
        exact List.take_of_length_le (by omega)
      · omega
    · have hrep : (conforming s).report cp = -1 := by
        show (if (s.length : Int) ≤ 2^31 - 1 then (s.length : Int) else -1) = _
        rw [if_neg hL]
      rw [hrep, wrap_neg_one] at hpos
      omega
  · simp only [Option.some.injEq] at hfin
    subst hfin
    simp at hres

theorem complete_output_of_success_witness :
    (['h', 'i'] : List Char) = ['h', 'i'] ∧
      ((['h', 'i'] : List Char).length : Int) + 1 ≤ 256 :=
  complete_output_of_success ['h', 'i'] allocAll 0 1
    ⟨some (['h', 'i'], 256, 0), [0], 0⟩ ['h', 'i'] 256 0 (by decide) (by decide)

/-- C2: the first attempted capacity is always 256; any call whose first
report is non-negative and strictly below 256 returns on the first attempt
with capacity still 256; and over a conforming `vsnprintf` with output `s`,
`s.length < 256`, the returned content is exactly `s`. -/
theorem first_attempt_small :
    (∀ (F : Facility) (aok : Nat → Bool) (va fuel : Nat), aok 0 = true →
      ∃ rest, (log_to_string F aok va (fuel + 1)).caps = 256 :: rest) ∧
    (∀ (F : Facility) (aok : Nat → Bool) (va fuel : Nat), aok 0 = true →
      -1 < wrap (F.report 256) → wrap (F.report 256) < 256 →
      log_to_string F aok va (fuel + 1) =
        ⟨some ⟨some (F.write 256 [], 256, 0), [0], va⟩, [256], [va]⟩) ∧
    (∀ (s : List Char) (aok : Nat → Bool) (va fuel : Nat), aok 0 = true →
      s.length < 256 →
      log_to_string (conforming s) aok va (fuel + 1) =
        ⟨some ⟨some (s, 256, 0), [0], va⟩, [256], [va]⟩) := by
  refine ⟨?_, fun F aok va fuel h0 h1 h2 =>
    log_first_attempt F aok va fuel h0 h1 h2, ?_⟩
  · intro F aok va fuel h0
    rw [log_to_string, if_pos h0]
    exact run_caps_head _ _ _ _ _ _ _ _ _ _
  · intro s aok va fuel h0 hlen
    have hrep : (conforming s).report 256 = (s.length : Int) := by
      show (if (s.length : Int) ≤ 2^31 - 1 then (s.length : Int) else -1) = _
      rw [if_pos (by omega)]
    have hw : wrap ((conforming s).report 256) = (s.length : Int) := by
      rw [hrep]; exact wrap_eq_self (by omega) (by omega)
    have hwrite : (conforming s).write 256 [] = s := by
      show (if (256 : Int) ≤ 0 then [] else s.take ((256 : Int) - 1).toNat) = s
      rw [if_neg (by omega)]
      exact List.take_of_length_le (by omega)
    rw [log_first_attempt (conforming s) aok va fuel h0
      (by rw [hw]; omega) (by rw [hw]; omega), hwrite]

theorem first_attempt_small_witness :
    log_to_string (conforming ['h', 'i']) allocAll 5 (0 + 1) =
      ⟨some ⟨some (['h', 'i'], 256, 0), [0], 5⟩, [256], [5]⟩ :=
  first_attempt_small.2.2 ['h', 'i'] allocAll 5 0 rfl (by decide)

/-- C3 as stated fails at `n = INT_MAX`: with a facility reporting
`2^31 - 1` (the true length of e.g. a `%2147483647d` directive), the
capacity used for the next iteration is the wrapped value `-2^31`, not
`n + 1 = 2^31`. -/
theorem grow_exact_cex :
    (log_to_string (constRep (2^31 - 1)) allocAll 0 2).caps =
      [256, -(2^31)] ∧ (-(2^31) : Int) ≠ (2^31 - 1) + 1 := by
  constructor <;> decide

/-- C3 amended: after a non-negative report `n ≥ size`, the next capacity is
`n + 1` reduced to `int` range, which equals `n + 1` exactly whenever
`n + 1` does not overflow (`n + 1 < 2^31`); in that regime the loop's second
attempted capacity is indeed the report plus one. -/
theorem grow_exact :
    (∀ n size : Int, -1 < n → size ≤ n → n + 1 < 2^31 →
      nextSize n size = n + 1) ∧
    (∀ (L : Int) (va fuel : Nat), 256 ≤ L → L + 1 < 2^31 → 2 ≤ fuel →
      (log_to_string (constRep L) allocAll va fuel).caps[1]? =
        some (L + 1)) := by
  constructor
  · intro n size hn hge hov
    rw [nextSize, if_pos hn]
    exact wrap_eq_self (by omega) (by omega)
  · intro L va fuel h256 hov hfuel
    exact constRep_second_cap (constRep L) L allocAll va (fun _ => rfl)
      h256 hov rfl rfl fuel hfuel

theorem grow_exact_witness :
    nextSize 300 256 = 300 + 1 ∧
    (log_to_string (constRep 300) allocAll 0 2).caps[1]? = some (300 + 1) :=
  ⟨grow_exact.1 300 256 (by decide) (by decide) (by decide),
   grow_exact.2 300 0 2 (by decide) (by decide) (by decide)⟩

/-- C4: on a negative report the next capacity is exactly twice the current
capacity in wrapped `int` arithmetic — congruent to `size · 2 mod 2^32` —
and after `k` consecutive negative reports from a fresh call the attempted
capacity is congruent to `256 · 2^k mod 2^32`. -/
theorem double_mod :
    (∀ n size : Int, n < 0 →
      nextSize n size = wrap (size * 2) ∧
      nextSize n size ≡ size * 2 [ZMOD 2^32]) ∧
    (∀ (va k fuel : Nat), k < fuel →
      (log_to_string constNeg allocAll va fuel).caps[k]? =
        some (capIter 256 k) ∧
      capIter 256 k ≡ 256 * 2^k [ZMOD 2^32]) := by
  constructor
  · intro n size hn
    have h : nextSize n size = wrap (size * 2) := by
      rw [nextSize, if_neg (by omega)]
    exact ⟨h, h ▸ wrap_modEq _⟩
  · intro va k fuel hk
    refine ⟨?_, capIter_modEq k⟩
    rw [log_to_string, if_pos (show allocAll 0 = true from rfl)]
    exact run_constNeg_caps va fuel k 256 [] 1 0 1 [0] hk

theorem double_mod_witness :
    (nextSize (-1) 256 = wrap (256 * 2) ∧
      nextSize (-1) 256 ≡ 256 * 2 [ZMOD 2^32]) ∧
    ((log_to_string constNeg allocAll 0 3).caps[2]? =
        some (capIter 256 2) ∧
      capIter 256 2 ≡ 256 * 2^2 [ZMOD 2^32]) :=
  ⟨double_mod.1 (-1) 256 (by decide), double_mod.2 0 2 3 (by decide)⟩

/-- C5: NULL is returned exactly on allocation failure: a failed initial
`malloc` returns NULL at once with nothing allocated; a NULL return implies
some allocation event failed and leaves an empty heap — the held buffer was
freed, nothing is leaked and no partial buffer is observable; with a
never-failing allocator the result is never NULL; and a non-null return
leaves exactly the returned block allocated. -/
theorem null_iff_alloc_fail :
    (∀ (F : Facility) (aok : Nat → Bool) (va fuel : Nat), aok 0 = false →
      log_to_string F aok va fuel = ⟨some ⟨none, [], va⟩, [], []⟩) ∧
    (∀ (F : Facility) (aok : Nat → Bool) (va fuel : Nat) (st : CompState),
      (log_to_string F aok va fuel).fin = some st →
      (st.result = none → st.heap = [] ∧ ∃ j, aok j = false) ∧
      (∀ b cp bi, st.result = some (b, cp, bi) → st.heap = [bi]) ∧
      ((∀ j, aok j = true) → st.result ≠ none)) := by
  constructor
  · intro F aok va fuel h
    rw [log_to_string, if_neg (by simp [h])]
  · intro F aok va fuel st hfin
    rw [log_to_string] at hfin
    split at hfin
    · have h := run_heap F aok va fuel 256 [] 1 0 1 [0] st rfl hfin
      refine ⟨h.1, h.2, fun hall hnone => ?_⟩
      obtain ⟨_, j, hj⟩ := h.1 hnone
      rw [hall j] at hj
      simp at hj
    · rename_i h0
      simp only [Option.some.injEq] at hfin
      subst hfin
      refine ⟨fun _ => ⟨rfl, 0, by simpa using h0⟩,
        fun b cp bi hr => by simp at hr,
        fun hall _ => h0 (hall 0)⟩

theorem null_iff_alloc_fail_witness :
    log_to_string constNeg (fun _ => false) 3 5 =
      ⟨some ⟨none, [], 3⟩, [], []⟩ :=
  null_iff_alloc_fail.1 constNeg (fun _ => false) 3 5 rfl

/-- C6 as stated fails: with a facility reporting a negative length on every
attempt and an allocator that never fails, no amount of fuel makes
`log_to_string` return — the doubling loop runs forever. -/
theorem always_negative_diverges_cex :
    ¬ Terminates constNeg allocAll 0 := by
  rintro ⟨fuel, h⟩
  apply h
  rw [log_to_string, if_pos (show allocAll 0 = true from rfl)]
  exact run_constNeg_none 0 fuel 256 [] 1 0 1 [0]

/-- C6 amended: `log_to_string` terminates — returning a buffer or failing
atomically with NULL — whenever the facility reports a fixed non-negative
length with `L + 1` representable in `int`, or the initial `malloc` fails,
or some growth reallocation fails; with every report negative and every
allocation succeeding the loop does not terminate. -/
theorem terminates_cases :
    (∀ (F : Facility) (L : Int) (aok : Nat → Bool) (va : Nat),
      (∀ sz, F.report sz = L) → 0 ≤ L → L + 1 < 2^31 → aok 0 = true →
      Terminates F aok va) ∧
    (∀ (F : Facility) (aok : Nat → Bool) (va : Nat), aok 0 = false →
      Terminates F aok va) ∧
    (∀ (F : Facility) (aok : Nat → Bool) (va j : Nat), 1 ≤ j →
      aok j = false → Terminates F aok va) := by
  refine ⟨?_, terminates_of_malloc_fail, terminates_of_alloc_fail⟩
  intro F L aok va hF h0 h1 ha
  exact ⟨2, (constRep_two_attempts F L aok va hF h0 h1 ha 2 (by omega)).1⟩

theorem terminates_cases_witness :
    Terminates (constRep 300) allocAll 0 :=
  terminates_cases.1 (constRep 300) 300 allocAll 0 (fun _ => rfl)
    (by decide) (by decide) rfl

/-- C7: `log_to_string` is deterministic: two calls over extensionally equal
facilities (same reports and writes, i.e. equal format string and argument
values), equal allocator behaviour and equal argument-list cursor return
identical outcomes — in particular identical buffer content and the same
sequence of attempted capacities. -/
theorem deterministic (F G : Facility) (aok bok : Nat → Bool)
    (va fuel : Nat) (hr : F.report = G.report) (hw : F.write = G.write)
    (hab : aok = bok) :
    log_to_string F aok va fuel = log_to_string G bok va fuel ∧
    (log_to_string F aok va fuel).caps =
      (log_to_string G bok va fuel).caps := by
  obtain ⟨fr, fw⟩ := F
  obtain ⟨gr, gw⟩ := G
  dsimp only at hr hw
  subst hr
  subst hw
  subst hab
  exact ⟨rfl, rfl⟩

theorem deterministic_witness :
    log_to_string (constRep 5) allocAll 0 2 =
      log_to_string ⟨fun _ => 5, fun _ old => old⟩ allocAll 0 2 ∧
    (log_to_string (constRep 5) allocAll 0 2).caps =
      (log_to_string ⟨fun _ => 5, fun _ old => old⟩ allocAll 0 2).caps :=
  deterministic (constRep 5) ⟨fun _ => 5, fun _ old => old⟩
    allocAll allocAll 0 2 rfl rfl rfl

/-- C8: every `vsnprintf` attempt receives a fresh copy of the caller's
argument-list cursor — each recorded cursor equals the original `va`, not an
advanced one — and the caller's cursor is unchanged when `log_to_string`
returns. -/
theorem vararg_untouched (F : Facility) (aok : Nat → Bool)
    (va fuel : Nat) :
    (log_to_string F aok va fuel).curs =
      List.replicate (log_to_string F aok va fuel).curs.length va ∧
    (log_to_string F aok va fuel).fin.map CompState.va =
      (log_to_string F aok va fuel).fin.map (fun _ => va) := by
  rw [log_to_string]
  split
  · exact run_va F aok va fuel 256 [] 1 0 1 [0]
  · exact ⟨rfl, rfl⟩

/-- C9: `log_to_string_free` applied to NULL is a no-op: it deallocates
nothing and leaves the heap unchanged. -/
theorem free_null_noop (heap : List Nat) :
    log_to_string_free none heap = heap := rfl

/-- C10 as stated fails: a facility reporting the true length
`INT_MAX = 2^31 - 1` on every attempt (e.g. a `%2147483647d` directive)
drives more than two attempts — growing to "length + 1" overflows to
`-2^31`, so the success test keeps failing and the run is still going after
three attempts. -/
theorem two_attempts_cex :
    (log_to_string (constRep (2^31 - 1)) allocAll 0 3).caps.length = 3 ∧
    (log_to_string (constRep (2^31 - 1)) allocAll 0 3).fin = none := by
  constructor <;> decide

/-- C10 amended: if the facility always reports the true output length
`L ≥ 0` and `L + 1` does not overflow `int`, the call finishes within two
rendering attempts — hence at most one growth reallocation: after growing
to `L + 1` the next attempt satisfies the success condition. -/
theorem two_attempts (F : Facility) (L : Int) (aok : Nat → Bool)
    (va fuel : Nat) (hF : ∀ sz, F.report sz = L) (h0 : 0 ≤ L)
    (h1 : L + 1 < 2^31) (ha : aok 0 = true) (hfuel : 2 ≤ fuel) :
    (log_to_string F aok va fuel).fin ≠ none ∧
    (log_to_string F aok va fuel).caps.length ≤ 2 :=
  constRep_two_attempts F L aok va hF h0 h1 ha fuel hfuel

theorem two_attempts_witness :
    (log_to_string (constRep 300) allocAll 0 2).fin ≠ none ∧
    (log_to_string (constRep 300) allocAll 0 2).caps.length ≤ 2 :=
  two_attempts (constRep 300) 300 allocAll 0 2 (fun _ => rfl)
    (by decide) (by decide) rfl (by decide)

end LogToString
